import Mathlib

/-!
Verification of the Presto query-runner adapter
(`redash/query_runner/presto.py`) against its natural-language
specification.

The shallow embedding below translates the adapter source into Lean:

* Python values that flow through the error-handling code (to which the
  `DatabaseError.message` payload belongs) are embedded as the inductive
  `PyVal` (None, int, str, dict, set); `dict.get` with a default is
  `dictGetD`; calling `.get` on a non-dict raises `AttributeError`,
  which the embedding surfaces through `Except`.
* Python `dict(zip(names, values))` construction (last value wins on a
  duplicate key, first insertion fixes the position) is `pyDict`.
* The configuration dictionary with its `.get(key, default)` accesses
  becomes the `Configuration` record of optional fields plus `Option.getD`.
* The pyhive connection/cursor is a black box (the spec treats the wire
  protocol as an external collaborator): the side effects the source
  performs on it (`presto.connect(...)`, `connection.cursor()`,
  `cursor.execute(query)`, `cursor.cancel()`) are recorded in an event
  trace, and the outcome of `cursor.execute` / `cursor.fetchall` for one
  call is supplied as an `EngineBehavior` oracle value.  The event
  alphabet also contains `Event.close` for a `connection.close()` or
  `cursor.close()` call, because the specification claims the connection
  is released; the source contains no such call.
* `json_dumps` / `json_loads` are external collaborators that the spec
  excludes from scope; the embedding keeps the structured result value
  (`ResultData`) in place of its JSON serialization.
-/

/-- Embedding of the Python values reaching the adapter's error-handling
and row-materialization code: `None`, integers, strings, dicts and sets.
The set constructor exists because line 155 of the source contains the
set literal written with braces around the two elements
(the string `message` and `None`) as the default of a `dict.get` call. -/
inductive PyVal where
  | pynone
  | pyint (n : Int)
  | pystr (s : String)
  | pydict (entries : List (String × PyVal))
  | pyset (elems : List PyVal)

/-- A single-quote character, used by the Python `repr` of strings. -/
def squote : String := String.singleton (Char.ofNat 39)

mutual

/-- Python `repr` of an embedded value (enough of it for the payloads the
adapter manipulates). -/
def pyRepr : PyVal → String
  | PyVal.pynone => "None"
  | PyVal.pyint n => toString n
  | PyVal.pystr s => squote ++ s ++ squote
  | PyVal.pydict es => "\x7b" ++ pyReprEntries es ++ "\x7d"
  | PyVal.pyset es => "\x7b" ++ pyReprElems es ++ "\x7d"

/-- `repr` of the comma-separated entries of a Python dict. -/
def pyReprEntries : List (String × PyVal) → String
  | [] => ""
  | [(k, v)] => squote ++ k ++ squote ++ ": " ++ pyRepr v
  | (k, v) :: rest => squote ++ k ++ squote ++ ": " ++ pyRepr v ++ ", " ++ pyReprEntries rest

/-- `repr` of the comma-separated elements of a Python set. -/
def pyReprElems : List PyVal → String
  | [] => ""
  | [v] => pyRepr v
  | v :: rest => pyRepr v ++ ", " ++ pyReprElems rest

end

/-- Python `str()` of an embedded value, as used by
`'Unspecified DatabaseError: \x7b0\x7d'.format(db.message)` and by
`unicode(error)`: a string converts to itself, everything else to its
`repr`. -/
def pyStr : PyVal → String
  | PyVal.pystr s => s
  | v => pyRepr v

/-- Python `d.get(k, default)` on a dict embedded as an entry list. -/
def dictGetD (es : List (String × PyVal)) (k : String) (dflt : PyVal) : PyVal :=
  match es.find? (fun p => p.1 == k) with
  | some p => p.2
  | none => dflt

/-- One insertion into a Python dict: an existing key keeps its position
and receives the new value, a new key is appended at the end. -/
def dictInsert (d : List (String × PyVal)) (k : String) (v : PyVal) :
    List (String × PyVal) :=
  if d.any (fun p => p.1 == k) then d.map (fun p => if p.1 == k then (k, v) else p)
  else d ++ [(k, v)]

/-- Python `dict(pairs)` (hence `dict(zip(names, row))`): insert the pairs
left to right; on a duplicate key the last value wins while the first
occurrence fixes the position. -/
def pyDict (l : List (String × PyVal)) : List (String × PyVal) :=
  l.foldl (fun d p => dictInsert d p.1 p.2) []

/-- Modelled from the spec: the canonical column-type enumeration
"{INTEGER, FLOAT, BOOLEAN, STRING, DATE, UNKNOWN}" (§3 Data model).  The
`TYPE_INTEGER` … constants imported from `redash.query_runner` are not
under `src/`; the source's `None` result for an unmapped native type is
the canonical `UNKNOWN` ("unmapped native types resolve to UNKNOWN"). -/
inductive CanonicalType where
  | INTEGER
  | FLOAT
  | BOOLEAN
  | STRING
  | DATE
  | UNKNOWN
deriving DecidableEq, Repr

/-- First-match association-list lookup, the embedding of a Python dict
lookup on a literal dict with distinct keys. -/
def assocLookup : List (String × CanonicalType) → String → Option CanonicalType
  | [], _ => none
  | (k, v) :: rest, s => if s = k then some v else assocLookup rest s

/-- The `PRESTO_TYPES_MAPPING` dict literal, lines 17-29 of the source,
in source order. -/
def PRESTO_TYPES_MAPPING : List (String × CanonicalType) :=
  [("integer", CanonicalType.INTEGER),
   ("tinyint", CanonicalType.INTEGER),
   ("smallint", CanonicalType.INTEGER),
   ("long", CanonicalType.INTEGER),
   ("bigint", CanonicalType.INTEGER),
   ("float", CanonicalType.FLOAT),
   ("double", CanonicalType.FLOAT),
   ("boolean", CanonicalType.BOOLEAN),
   ("string", CanonicalType.STRING),
   ("varchar", CanonicalType.STRING),
   ("date", CanonicalType.DATE)]

/-- `PRESTO_TYPES_MAPPING.get(name, None)`, line 142 of the source. -/
def prestoTypesMappingGet (s : String) : Option CanonicalType :=
  assocLookup PRESTO_TYPES_MAPPING s

/-- The adapter's configuration dictionary: every field the source reads
with `self.configuration.get(...)`, as optional values (`none` = key
absent). -/
structure Configuration where
  host : Option String := none
  port : Option Nat := none
  protocol : Option String := none
  username : Option String := none
  password : Option String := none
  catalog : Option String := none
  schema : Option String := none
  source : Option String := none
  blacklisted_table_schemas : Option String := none
  user_impersonation : Option Bool := none

/-- The caller principal (`user` argument of `run_query`): only its
`email` attribute is read. -/
structure User where
  email : String

/-- A normalized result column: `fetch_columns` output entry
(name + canonical type). -/
structure Column where
  name : String
  type : CanonicalType
deriving DecidableEq, Repr

/-- Modelled from the spec: `BaseQueryRunner.fetch_columns` is not under
`src/`.  Per §4.2 step 4, the executor reads "the result's column
descriptors (each a native-type-tagged name)" and "map[s] each through
TypeMapper to build the Column sequence", with "unmapped native types
resolve to UNKNOWN (never an error)" (§3). -/
def fetch_columns (tuples : List (String × Option CanonicalType)) : List Column :=
  tuples.map (fun t => ⟨t.1, t.2.getD CanonicalType.UNKNOWN⟩)

/-- The structured success payload `{'columns': columns, 'rows': rows}`
(kept structured; `json_dumps`/`json_loads` are external collaborators).
Each row is a Python dict embedded as its entry list. -/
structure ResultData where
  columns : List Column
  rows : List (List (String × PyVal))

/-- The side effects `run_query` performs on the black-box pyhive
client, in order.  `close` is in the alphabet because the specification
claims the connection is released; the source never performs it. -/
inductive Event where
  | connect (host : String) (port : Nat) (protocol : String) (username : String)
      (password : Option String) (catalog : String) (schema : String) (source : String)
  | cursor
  | execute (query : String)
  | cancel
  | close
deriving DecidableEq, Repr

/-- Whether an event is the `presto.connect(...)` call. -/
def Event.isConnect : Event → Bool
  | Event.connect _ _ _ _ _ _ _ _ => true
  | _ => false

/-- The engine's behaviour for the one `cursor.execute(query)` call of a
`run_query` invocation (the black-box oracle): success with column
descriptors (`(i[0], i[1])` of `cursor.description`) and fetched rows,
a raised `pyhive.exc.DatabaseError` carrying its `message` payload, a
`KeyboardInterrupt`/`InterruptException` (carrying whatever the engine
replies to the subsequent `cursor.cancel()`, which the source ignores),
or any other exception carrying its `message`. -/
inductive EngineBehavior where
  | success (description : List (String × String)) (rows : List (List PyVal))
  | databaseError (message : PyVal)
  | interrupted (cancelReply : PyVal)
  | otherError (message : PyVal)

/-- Outcome of one `run_query` call: the trace of effects on the pyhive
client, and either the returned `(json_data, error)` pair or an uncaught
Python exception (`Except.error`). -/
structure RunOutcome where
  trace : List Event
  result : Except String (Option ResultData × Option PyVal)

/-- Shallow embedding of `Presto.run_query` (lines 120-170 of the
source).  The `username` resolution, `presto.connect` keyword arguments
with their `.get` defaults, `(password or None)`, the result
materialization, and the four `except` clauses follow the source line by
line; the `DatabaseError` handler reproduces the source's set-literal
default (written there with braces around the string `message` and
`None`), on which the subsequent `.get` of the key `message` raises an
uncaught `AttributeError`. -/
def run_query (conf : Configuration) (user : Option User) (query : String)
    (beh : EngineBehavior) : RunOutcome :=
  let should_impersonate_user := conf.user_impersonation.getD false
  let username :=
    match should_impersonate_user, user with
    | false, _ => conf.username.getD "redash"
    | true, none => conf.username.getD "redash"
    | true, some u => u.email
  let passwordArg :=
    match conf.password with
    | none => none
    | some p => if p = "" then none else some p
  let pre : List Event :=
    [Event.connect (conf.host.getD "") (conf.port.getD 8080) (conf.protocol.getD "http")
       username passwordArg (conf.catalog.getD "hive") (conf.schema.getD "default")
       (conf.source.getD "pyhive"),
     Event.cursor]
  let tail : List Event :=
    match beh with
    | EngineBehavior.interrupted _ => [Event.execute query, Event.cancel]
    | _ => [Event.execute query]
  let res : Except String (Option ResultData × Option PyVal) :=
    match beh with
    | EngineBehavior.success desc erows =>
        let column_tuples := desc.map (fun i => (i.1, prestoTypesMappingGet i.2))
        let columns := fetch_columns column_tuples
        let names := columns.map Column.name
        let rows := erows.map (fun r => pyDict (names.zip r))
        Except.ok (some ⟨columns, rows⟩, none)
    | EngineBehavior.databaseError payload =>
        let default_message := "Unspecified DatabaseError: " ++ pyStr payload
        match payload with
        | PyVal.pydict es =>
            match dictGetD es "failureInfo" (PyVal.pyset [PyVal.pystr "message", PyVal.pynone]) with
            | PyVal.pydict es2 =>
                let m := dictGetD es2 "message" PyVal.pynone
                let err := match m with
                  | PyVal.pynone => PyVal.pystr default_message
                  | mv => mv
                Except.ok (none, some err)
            | _ => Except.error "AttributeError: set object has no attribute get"
        | _ => Except.ok (none, some (PyVal.pystr default_message))
    | EngineBehavior.interrupted _ =>
        Except.ok (none, some (PyVal.pystr "Query cancelled by user."))
    | EngineBehavior.otherError msg =>
        let err := match msg with
          | PyVal.pystr s => PyVal.pystr s
          | v => PyVal.pystr (pyStr v)
        Except.ok (none, some err)
  ⟨pre ++ tail, res⟩

/-- Helper for Python `s.split(',')`: split a character list at every
comma, keeping empty segments. -/
def splitCommaAux : List Char → List Char → List (List Char)
  | [], acc => [acc.reverse]
  | c :: rest, acc =>
      if c = ',' then acc.reverse :: splitCommaAux rest []
      else splitCommaAux rest (c :: acc)

/-- Python `s.split(',')`: always at least one segment; the empty string
splits to a list holding one empty string. -/
def pySplitComma (s : String) : List String :=
  (splitCommaAux s.data []).map String.mk

/-- The characters Python `str.strip()` removes. -/
def isPySpace (c : Char) : Bool :=
  c = ' ' || c = '\t' || c = '\n' || c = '\r' || c = '\x0b' || c = '\x0c'

/-- Python `str.strip()`: drop whitespace from both ends. -/
def pyStrip (s : String) : String :=
  String.mk (((s.data.dropWhile isPySpace).reverse.dropWhile isPySpace).reverse)

/-- Lines 92-95 of the source: the schema-discovery exclusion list.
`default_table_schemas + map(str.strip, blacklisted_table_schemas.split(','))`
with the blacklist read as `configuration.get('blacklisted_table_schemas', '')`.
Empty segments are not dropped: an unset or empty blacklist contributes
the single segment produced by splitting the empty string. -/
def final_table_schemas (conf : Configuration) : List String :=
  let blacklisted_table_schemas := conf.blacklisted_table_schemas.getD ""
  ["pg_catalog", "information_schema"] ++ (pySplitComma blacklisted_table_schemas).map pyStrip

/-- One row of the catalog query result (the three selected fields of a
row dict of `results['rows']`). -/
structure CatalogRow where
  table_schema : String
  table_name : String
  column_name : String
deriving DecidableEq, Repr

/-- Line 111 of the source: the qualified table name
`'\x7b\x7d.\x7b\x7d'.format(row['table_schema'], row['table_name'])`. -/
def qualifiedName (r : CatalogRow) : String :=
  r.table_schema ++ "." ++ r.table_name

/-- One `schema[table_name]` dict value: `{'name': table_name,
'columns': [...]}` .  The dict key always equals the stored `name` (the
entry is created as `{'name': table_name, 'columns': []}` under the key
`table_name` and only `columns` is ever mutated), so the dict's
contents are embedded as the list of its values with `name` as the key,
kept in key-creation order as bookkeeping.  The order in which Python 2
emits these values from `schema.values()` is the hash table's slot
order, modelled separately by `get_schema_values_py2`. -/
structure TableSchemaEntry where
  name : String
  columns : List String
deriving DecidableEq, Repr

/-- One iteration of the loop of lines 110-116 of the source: create the
entry on first encounter of the qualified name, then append the row's
`column_name` to that entry's column list. -/
def schemaStep (schema : List TableSchemaEntry) (row : CatalogRow) :
    List TableSchemaEntry :=
  let tn := qualifiedName row
  let schema' := if schema.any (fun e => e.name == tn) then schema
    else schema ++ [⟨tn, []⟩]
  schema'.map (fun e => if e.name == tn then ⟨tn, e.columns ++ [row.column_name]⟩ else e)

/-- Lines 110-118 of the source: the contents of the `schema` dict after
folding the catalog rows, as the list of its values in key-creation
(first-encounter) order.  This is faithful to the dict's
order-independent contents — which keys exist, each key's value, and
the append order inside each value's `columns` list (Python lists are
ordered).  The source is Python 2 (`basestring`/`unicode` on lines
167-168, `list + map` on line 94), whose plain dict iterates in hash
table slot order rather than key-creation order, so the sequence
`schema.values()` actually returns is `get_schema_values_py2`, which
reorders these entries by the simulated CPython 2 slot order. -/
def get_schema_tables (rows : List CatalogRow) : List TableSchemaEntry :=
  rows.foldl schemaStep []

/-- Keys of a list not already seen, first occurrence kept, in order:
the insertion order of the dict keys created by the fold. -/
def dedupNew : List String → List String → List String
  | _, [] => []
  | seen, x :: xs =>
      if x ∈ seen then dedupNew seen xs else x :: dedupNew (seen ++ [x]) xs

/-- First-seen-order deduplication of a list of strings. -/
def dedupFirst (l : List String) : List String :=
  dedupNew [] l

/-- CPython 2.7's deterministic string hash (`string_hash` in
`Objects/stringobject.c`) on a 64-bit build with hash randomization off
(the Python 2 defaults), as the unsigned 64-bit bit pattern:
`x = s[0] << 7`, then `x = (1000003*x) XOR byte` over the bytes, then
`x = x XOR len(s)`, with `-1` remapped to `-2`.  (Checkable fixed
point: the hash of the one-letter string `a` is 12416037344.)  This is
what orders the slots of the `schema` dict of line 90. -/
def py2StringHash (s : String) : Nat :=
  match s.data with
  | [] => 0
  | c :: _ =>
      let x0 := (c.toNat <<< 7) % (2 ^ 64)
      let x1 := s.data.foldl (fun x ch => ((1000003 * x) % (2 ^ 64)) ^^^ ch.toNat) x0
      let x2 := x1 ^^^ s.length
      if x2 = 2 ^ 64 - 1 then 2 ^ 64 - 2 else x2

/-- CPython 2.7's open-addressing probe (`lookdict`) for a new key in
the dict's initial 8-slot table: after the first probe at
`hash & 7`, repeat `i = 5*i + perturb + 1` (as a 64-bit `size_t`),
check slot `i & 7`, and shift `perturb` right by 5 each round.  The
fuel bounds the recursion; 64 rounds always reach a free slot when one
exists (after at most 13 shifts the perturbation is zero and
`i = 5*i + 1 mod 8` cycles through all eight slots). -/
def py2Probe : Nat → List Nat → Nat → Nat → Nat
  | 0, _, i, _ => i % 8
  | fuel + 1, occupied, i, perturb =>
      let j := (5 * i + perturb + 1) % (2 ^ 64)
      if j % 8 ∈ occupied then py2Probe fuel occupied j (perturb >>> 5)
      else j % 8

/-- The slot CPython 2.7 stores a new key into, in an 8-slot table with
the given occupied slots: `hash & 7` when free, else the probe
sequence. -/
def py2InsertSlot (occupied : List Nat) (h : Nat) : Nat :=
  if h % 8 ∈ occupied then py2Probe 64 occupied (h % 8) h else h % 8

/-- Insert the keys in order into an empty 8-slot CPython 2 dict table,
returning each key's slot.  Valid while the table is not resized, i.e.
for at most 5 keys (CPython 2 grows the 8-slot table when the sixth key
arrives); `get_schema` inserts one key per discovered table. -/
def py2InsertAll (keys : List String) : List (Nat × String) :=
  keys.foldl (fun table k =>
    table ++ [(py2InsertSlot (table.map Prod.fst) (py2StringHash k), k)]) []

/-- The order in which CPython 2 iterates the dict's keys: ascending
slot index of the occupied slots (`PyDict_Next` walks the table from
slot 0 upward). -/
def py2ValuesOrder (keys : List String) : List String :=
  let table := py2InsertAll keys
  ((List.range 8).filterMap (fun s => table.find? (fun p => p.1 == s))).map Prod.snd

/-- Lines 110-118 under Python 2 dict-iteration semantics: the sequence
`schema.values()` returns.  The dict's contents are the entries of
`get_schema_tables` (one per first-seen qualified name, keyed by it);
Python 2 emits them in the hash table's slot order for the keys as
inserted in first-encounter order.  Faithful for at most 5 discovered
tables (before the dict's first resize); the simulation reproduces the
dict-ordering example of the Python 2 tutorial (keys inserted as
`jack, sape, guido` iterate as `sape, jack, guido`). -/
def get_schema_values_py2 (rows : List CatalogRow) : List TableSchemaEntry :=
  let entries := get_schema_tables rows
  (py2ValuesOrder (entries.map TableSchemaEntry.name)).filterMap
    (fun k => entries.find? (fun e => e.name == k))

/-- The claim's fixed type table, stated from the specification's words:
integer, tinyint, smallint, long and bigint map to INTEGER; float and
double to FLOAT; boolean to BOOLEAN; string and varchar to STRING; date
to DATE; every other name to UNKNOWN. -/
def specPrestoType (s : String) : CanonicalType :=
  if s = "integer" ∨ s = "tinyint" ∨ s = "smallint" ∨ s = "long" ∨ s = "bigint" then
    CanonicalType.INTEGER
  else if s = "float" ∨ s = "double" then CanonicalType.FLOAT
  else if s = "boolean" then CanonicalType.BOOLEAN
  else if s = "string" ∨ s = "varchar" then CanonicalType.STRING
  else if s = "date" then CanonicalType.DATE
  else CanonicalType.UNKNOWN

/-- The claim's effective-username resolution, stated from the
specification's words: when impersonation is off or the principal is
absent, the configured username (default `redash`); otherwise the
principal's email. -/
def specEffectiveUsername (conf : Configuration) (user : Option User) : String :=
  match user with
  | none => conf.username.getD "redash"
  | some u =>
      if conf.user_impersonation.getD false then u.email else conf.username.getD "redash"

/-- The claim's password handling, stated from the specification's
words: an absent or empty password becomes `none`; a non-empty password
passes through unchanged. -/
def specPasswordArg : Option String → Option String
  | none => none
  | some s => if s = "" then none else some s

/-- The claim's blacklist entries, stated from the specification's
words: split on comma, trim each entry, drop empty entries. -/
def specExclusionEntries (b : Option String) : List String :=
  ((pySplitComma (b.getD "")).map pyStrip).filter (fun s => s ≠ "")

/-- The username argument of the `presto.connect` call at the head of a
trace, when the trace starts with one. -/
def connUsername : List Event → Option String
  | Event.connect _ _ _ u _ _ _ _ :: _ => some u
  | _ => none

/-- The password argument of the `presto.connect` call at the head of a
trace, when the trace starts with one. -/
def connPassword : List Event → Option (Option String)
  | Event.connect _ _ _ _ p _ _ _ :: _ => some p
  | _ => none

/-- Claim C1 (code bug witness): evaluation of the `DatabaseError`
handler.  A payload whose dict carries a nested `failureInfo` message
yields exactly that message, and a plain-string payload yields the
generic fallback, as the claim states; but a structured payload without
a `failureInfo` key makes the handler call `.get` of `message` on the
set literal used as the lookup default, raising an uncaught
`AttributeError` instead of returning the fallback Error the claim
promises. -/
theorem c1_database_error_message (conf : Configuration) (user : Option User) (q : String) :
    (run_query conf user q (EngineBehavior.databaseError
        (PyVal.pydict [("failureInfo", PyVal.pydict [("message", PyVal.pystr "table not found")])]))).result =
      Except.ok (none, some (PyVal.pystr "table not found")) ∧
    (run_query conf user q (EngineBehavior.databaseError (PyVal.pystr "boom"))).result =
      Except.ok (none, some (PyVal.pystr "Unspecified DatabaseError: boom")) ∧
    (run_query conf user q (EngineBehavior.databaseError
        (PyVal.pydict [("errorName", PyVal.pystr "SYNTAX_ERROR")]))).result =
      Except.error "AttributeError: set object has no attribute get" := by
  refine ⟨rfl, rfl, rfl⟩

/-- Claim C2 (counterexample): a concrete successful invocation of
`run_query` performs no release of the connection before returning —
the trace of effects on the pyhive client contains no close event. -/
theorem c2_counterexample :
    Event.close ∉ (run_query { host := some "example.com" } none "SELECT 1"
      (EngineBehavior.success [] [])).trace := by
  decide

/-- Claim C2 (amended): on every invocation and every engine behaviour,
`run_query` acquires the connection as its first effect and never
releases it: no close event occurs on any path before the call
returns. -/
theorem c2_never_released (conf : Configuration) (user : Option User) (q : String)
    (beh : EngineBehavior) :
    ((run_query conf user q beh).trace.head?.map Event.isConnect = some true) ∧
    Event.close ∉ (run_query conf user q beh).trace := by
  cases beh <;> simp [run_query, Event.isConnect]

/-- Claim C6: when a cancellation signal arrives during execution,
`run_query` requests cancellation on the in-flight cursor operation and
returns the fixed message, with no result data, whatever the engine
replies to the cancel request. -/
theorem c6_cancelled (conf : Configuration) (user : Option User) (q : String)
    (reply : PyVal) :
    (run_query conf user q (EngineBehavior.interrupted reply)).result =
      Except.ok (none, some (PyVal.pystr "Query cancelled by user.")) ∧
    Event.cancel ∈ (run_query conf user q (EngineBehavior.interrupted reply)).trace := by
  constructor
  · rfl
  · simp [run_query]

/-- Claim C7: the type mapping (lines 17-29 with the `.get` default of
line 142 resolving to UNKNOWN) is the total, case-sensitive function the
specification tabulates: the eleven listed native names map to their
canonical types and every other name maps to UNKNOWN. -/
theorem c7_type_mapping (s : String) :
    (prestoTypesMappingGet s).getD CanonicalType.UNKNOWN = specPrestoType s := by
  simp only [prestoTypesMappingGet, PRESTO_TYPES_MAPPING, specPrestoType]
  by_cases h1 : s = "integer"
  · simp [assocLookup, h1]
  by_cases h2 : s = "tinyint"
  · simp [assocLookup, h1, h2]
  by_cases h3 : s = "smallint"
  · simp [assocLookup, h1, h2, h3]
  by_cases h4 : s = "long"
  · simp [assocLookup, h1, h2, h3, h4]
  by_cases h5 : s = "bigint"
  · simp [assocLookup, h1, h2, h3, h4, h5]
  by_cases h6 : s = "float"
  · simp [assocLookup, h1, h2, h3, h4, h5, h6]
  by_cases h7 : s = "double"
  · simp [assocLookup, h1, h2, h3, h4, h5, h6, h7]
  by_cases h8 : s = "boolean"
  · simp [assocLookup, h1, h2, h3, h4, h5, h6, h7, h8]
  by_cases h9 : s = "string"
  · simp [assocLookup, h1, h2, h3, h4, h5, h6, h7, h8, h9]
  by_cases h10 : s = "varchar"
  · simp [assocLookup, h1, h2, h3, h4, h5, h6, h7, h8, h9, h10]
  by_cases h11 : s = "date"
  · simp [assocLookup, h1, h2, h3, h4, h5, h6, h7, h8, h9, h10, h11]
  simp [assocLookup, h1, h2, h3, h4, h5, h6, h7, h8, h9, h10, h11]

/-- Claim C8: the username passed to `presto.connect` is resolved
deterministically from the configuration and the principal exactly as
the specification states: the configured username (default `redash`)
unless impersonation is on and a principal is present, in which case the
principal's email. -/
theorem c8_effective_username (conf : Configuration) (user : Option User) (q : String)
    (beh : EngineBehavior) :
    connUsername (run_query conf user q beh).trace = some (specEffectiveUsername conf user) := by
  rcases h : conf.user_impersonation with _ | b
  · cases beh <;> cases user <;> simp [run_query, connUsername, specEffectiveUsername, h]
  · cases b <;> cases beh <;> cases user <;>
      simp [run_query, connUsername, specEffectiveUsername, h]

/-- Claim C10: the password passed to `presto.connect` is `none` when
the configured password is absent or empty, and the configured string
itself otherwise (`configuration.get('password') or None`). -/
theorem c10_password_arg (conf : Configuration) (user : Option User) (q : String)
    (beh : EngineBehavior) :
    connPassword (run_query conf user q beh).trace = some (specPasswordArg conf.password) := by
  rcases h : conf.password with _ | p
  · cases beh <;> simp [run_query, connPassword, specPasswordArg, h]
  · cases beh <;> simp [run_query, connPassword, specPasswordArg, h]

/-- Claim C3 (counterexample): with `blacklisted_table_schemas` unset,
the exclusion list built by `get_schema` contains an empty-string entry
(splitting the default empty string on commas yields one empty segment,
and empty entries are not dropped), contradicting the claim that the
set never contains an empty-string entry. -/
theorem c3_counterexample :
    "" ∈ final_table_schemas { host := some "example.com" } := by
  decide

/-- Claim C3 (amended): the exclusion list is
`[pg_catalog, information_schema]` followed by the comma-split,
whitespace-trimmed entries of `blacklisted_table_schemas` with empty
entries retained: it always contains `pg_catalog` and
`information_schema`, it contains every non-empty trimmed entry, every
member is one of the two defaults, an empty string, or a non-empty
trimmed entry, and the spec's scenario holds with whitespace trimmed. -/
theorem c3_exclusion_amended (conf : Configuration) :
    "pg_catalog" ∈ final_table_schemas conf ∧
    "information_schema" ∈ final_table_schemas conf ∧
    (∀ s, s ∈ specExclusionEntries conf.blacklisted_table_schemas →
      s ∈ final_table_schemas conf) ∧
    (∀ s, s ∈ final_table_schemas conf →
      s = "pg_catalog" ∨ s = "information_schema" ∨ s = "" ∨
        s ∈ specExclusionEntries conf.blacklisted_table_schemas) ∧
    (conf.blacklisted_table_schemas = some " foo , bar" →
      final_table_schemas conf = ["pg_catalog", "information_schema", "foo", "bar"]) := by
  refine ⟨by simp [final_table_schemas], by simp [final_table_schemas], ?_, ?_, ?_⟩
  · intro s hs
    have hs' := List.mem_filter.mp hs
    simp only [final_table_schemas, List.mem_append]
    exact Or.inr hs'.1
  · intro s hs
    rcases List.mem_append.mp hs with h | h
    · simp only [List.mem_cons, List.not_mem_nil, or_false] at h
      rcases h with h | h
      · exact Or.inl h
      · exact Or.inr (Or.inl h)
    · by_cases he : s = ""
      · exact Or.inr (Or.inr (Or.inl he))
      · refine Or.inr (Or.inr (Or.inr ?_))
        exact List.mem_filter.mpr ⟨h, by simpa using he⟩
  · intro h
    simp only [final_table_schemas, h]
    decide

/-- Claim C3 (witness): the amended theorem instantiated at the spec's
scenario blacklist string. -/
theorem c3_exclusion_witness :
    ("foo" ∈ specExclusionEntries (some " foo , bar")) ∧
    "foo" ∈ final_table_schemas { blacklisted_table_schemas := some " foo , bar" } ∧
    final_table_schemas { blacklisted_table_schemas := some " foo , bar" } =
      ["pg_catalog", "information_schema", "foo", "bar"] :=
  ⟨by decide,
   (c3_exclusion_amended { blacklisted_table_schemas := some " foo , bar" }).2.2.1 "foo" (by decide),
   (c3_exclusion_amended { blacklisted_table_schemas := some " foo , bar" }).2.2.2.2 rfl⟩

lemma any_name_eq (schema : List TableSchemaEntry) (tn : String) :
    schema.any (fun e => e.name == tn) = true ↔ tn ∈ schema.map TableSchemaEntry.name := by
  simp only [List.any_eq_true, beq_iff_eq, List.mem_map]

lemma schemaUpd_name (row : CatalogRow) (e : TableSchemaEntry) :
    (if e.name == qualifiedName row
      then TableSchemaEntry.mk (qualifiedName row) (e.columns ++ [row.column_name])
      else e).name = e.name := by
  by_cases h : e.name = qualifiedName row <;> simp [h]

lemma schemaUpd_map_name (schema : List TableSchemaEntry) (row : CatalogRow) :
    (schema.map (fun e => if e.name == qualifiedName row
        then TableSchemaEntry.mk (qualifiedName row) (e.columns ++ [row.column_name])
        else e)).map TableSchemaEntry.name = schema.map TableSchemaEntry.name := by
  rw [List.map_map]
  exact List.map_congr_left (fun e _ => schemaUpd_name row e)

lemma schemaStep_names (schema : List TableSchemaEntry) (row : CatalogRow) :
    (schemaStep schema row).map TableSchemaEntry.name =
      if qualifiedName row ∈ schema.map TableSchemaEntry.name
      then schema.map TableSchemaEntry.name
      else schema.map TableSchemaEntry.name ++ [qualifiedName row] := by
  cases hany : schema.any (fun e => e.name == qualifiedName row) with
  | true =>
      have hc : qualifiedName row ∈ schema.map TableSchemaEntry.name :=
        (any_name_eq schema (qualifiedName row)).mp hany
      rw [if_pos hc]
      simp only [schemaStep, hany, if_true]
      exact schemaUpd_map_name schema row
  | false =>
      have hc : qualifiedName row ∉ schema.map TableSchemaEntry.name := by
        intro hmem
        have h2 := (any_name_eq schema (qualifiedName row)).mpr hmem
        rw [h2] at hany
        cases hany
      rw [if_neg hc]
      simp only [schemaStep, hany, Bool.false_eq_true, if_false, List.map_append]
      rw [schemaUpd_map_name schema row]
      congr 1
      simp

lemma fold_names (rows : List CatalogRow) :
    ∀ schema : List TableSchemaEntry,
      (rows.foldl schemaStep schema).map TableSchemaEntry.name =
        schema.map TableSchemaEntry.name ++
          dedupNew (schema.map TableSchemaEntry.name) (rows.map qualifiedName) := by
  induction rows with
  | nil => intro schema; simp [dedupNew]
  | cons row rest ih =>
      intro schema
      simp only [List.foldl_cons, List.map_cons]
      rw [ih (schemaStep schema row), schemaStep_names]
      by_cases hc : qualifiedName row ∈ schema.map TableSchemaEntry.name
      · rw [if_pos hc]
        simp [dedupNew, hc]
      · rw [if_neg hc]
        simp [dedupNew, hc, List.append_assoc]

lemma dedupNew_mem {x : String} :
    ∀ (seen l : List String), x ∈ dedupNew seen l → x ∈ l := by
  intro seen l
  induction l generalizing seen with
  | nil => simp [dedupNew]
  | cons y ys ih =>
      intro h
      simp only [dedupNew] at h
      by_cases hy : y ∈ seen
      · rw [if_pos hy] at h
        exact List.mem_cons_of_mem _ (ih _ h)
      · rw [if_neg hy] at h
        rcases List.mem_cons.mp h with h | h
        · exact h ▸ List.mem_cons_self _ _
        · exact List.mem_cons_of_mem _ (ih _ h)

lemma schemaStep_mem (schema : List TableSchemaEntry) (row : CatalogRow) :
    ∀ e2 ∈ schemaStep schema row,
      (∃ e0 ∈ schema, e0.name = e2.name ∧
          e2.columns = e0.columns ++
            (if qualifiedName row = e2.name then [row.column_name] else []))
      ∨ (e2 = ⟨qualifiedName row, [row.column_name]⟩ ∧
          qualifiedName row ∉ schema.map TableSchemaEntry.name) := by
  intro e2 he2
  cases hany : schema.any (fun e => e.name == qualifiedName row) with
  | true =>
      simp only [schemaStep, hany, if_true, List.mem_map] at he2
      obtain ⟨a, ha, hupd⟩ := he2
      by_cases h : a.name = qualifiedName row
      · refine Or.inl ⟨a, ha, ?_, ?_⟩
        · rw [← hupd]; simp [h]
        · rw [← hupd]; simp [h]
      · have h' : qualifiedName row ≠ a.name := fun hh => h hh.symm
        refine Or.inl ⟨a, ha, ?_, ?_⟩
        · rw [← hupd]; simp [h]
        · rw [← hupd]; simp [h, h']
  | false =>
      have hfresh : qualifiedName row ∉ schema.map TableSchemaEntry.name := by
        intro hmem
        have h2 := (any_name_eq schema (qualifiedName row)).mpr hmem
        rw [h2] at hany
        cases hany
      simp only [schemaStep, hany, Bool.false_eq_true, if_false, List.map_append,
        List.mem_map, List.mem_append, List.mem_singleton] at he2
      rcases he2 with ⟨a, ha, hupd⟩ | ⟨a, ha, hupd⟩
      · have h : a.name ≠ qualifiedName row := by
          intro hh
          exact hfresh (hh ▸ List.mem_map_of_mem TableSchemaEntry.name ha)
        have h' : qualifiedName row ≠ a.name := fun hh => h hh.symm
        refine Or.inl ⟨a, ha, ?_, ?_⟩
        · rw [← hupd]; simp [h]
        · rw [← hupd]; simp [h, h']
      · refine Or.inr ⟨?_, hfresh⟩
        rw [← hupd, ha]
        simp

lemma fold_columns (rows : List CatalogRow) :
    ∀ (schema : List TableSchemaEntry), ∀ e ∈ rows.foldl schemaStep schema,
      (∃ e0 ∈ schema, e0.name = e.name ∧
          e.columns = e0.columns ++
            (rows.filter (fun r => qualifiedName r == e.name)).map CatalogRow.column_name)
      ∨ (e.name ∉ schema.map TableSchemaEntry.name ∧
          e.columns = (rows.filter (fun r => qualifiedName r == e.name)).map CatalogRow.column_name) := by
  induction rows with
  | nil =>
      intro schema e he
      simp only [List.foldl_nil] at he
      exact Or.inl ⟨e, he, rfl, by simp⟩
  | cons row rest ih =>
      intro schema e he
      simp only [List.foldl_cons] at he
      rcases ih (schemaStep schema row) e he with ⟨e2, he2, hname2, hcols2⟩ | ⟨hnot2, hcols2⟩
      · rcases schemaStep_mem schema row e2 he2 with ⟨e0, he0, hname0, hcols0⟩ | ⟨heq, hfresh⟩
        · refine Or.inl ⟨e0, he0, hname0.trans hname2, ?_⟩
          rw [hcols2, hcols0, hname2]
          by_cases hq : qualifiedName row = e.name
          · simp [List.filter_cons, hq, List.append_assoc]
          · simp [List.filter_cons, hq]
        · rw [heq] at hname2 hcols2
          have hn : qualifiedName row = e.name := hname2
          refine Or.inr ⟨fun hmem => hfresh (by rw [hn]; exact hmem), ?_⟩
          rw [hcols2]
          simp [List.filter_cons, hn]
      · have hname_res := schemaStep_names schema row
        rw [hname_res] at hnot2
        have he_notin : e.name ∉ schema.map TableSchemaEntry.name ∧
            e.name ≠ qualifiedName row := by
          by_cases hc : qualifiedName row ∈ schema.map TableSchemaEntry.name
          · rw [if_pos hc] at hnot2
            exact ⟨hnot2, fun hh => hnot2 (by rw [hh]; exact hc)⟩
          · rw [if_neg hc] at hnot2
            simp only [List.mem_append, List.mem_singleton] at hnot2
            push_neg at hnot2
            exact ⟨hnot2.1, hnot2.2⟩
        refine Or.inr ⟨he_notin.1, ?_⟩
        rw [hcols2]
        have hq : ¬ (qualifiedName row = e.name) := fun hh => he_notin.2 hh.symm
        simp [List.filter_cons, hq]

/-- Claim C4 (counterexample): on the spec's own example rows
`[(s1,t1,c1), (s1,t1,c2), (s2,t2,c3)]`, the Python 2 dict behind
`schema.values()` iterates its two keys in hash-table slot order
(`s2.t2` lands in slot 4, `s1.t1` in slot 6), so the program returns
the `s2.t2` entry first — not the claimed first-seen order. -/
theorem c4_counterexample :
    get_schema_values_py2 [⟨"s1", "t1", "c1"⟩, ⟨"s1", "t1", "c2"⟩, ⟨"s2", "t2", "c3"⟩] =
      [⟨"s2.t2", ["c3"]⟩, ⟨"s1.t1", ["c1", "c2"]⟩] ∧
    dedupFirst (([⟨"s1", "t1", "c1"⟩, ⟨"s1", "t1", "c2"⟩, ⟨"s2", "t2", "c3"⟩] :
        List CatalogRow).map qualifiedName) = ["s1.t1", "s2.t2"] ∧
    (get_schema_values_py2 [⟨"s1", "t1", "c1"⟩, ⟨"s1", "t1", "c2"⟩, ⟨"s2", "t2", "c3"⟩]).map
        TableSchemaEntry.name ≠
      dedupFirst (([⟨"s1", "t1", "c1"⟩, ⟨"s1", "t1", "c2"⟩, ⟨"s2", "t2", "c3"⟩] :
        List CatalogRow).map qualifiedName) := by
  refine ⟨by decide, by decide, by decide⟩

/-- Claim C4 (amended): the fold groups correctly — every entry the
program returns carries exactly the `column_name` values, in row order,
of the catalog rows bearing its qualified name, and its name is the
qualified name of some row — but the sequence order of
`schema.values()` is the Python 2 dict's hash-table order, not
first-seen order. -/
theorem c4_grouping_hash_order (rows : List CatalogRow) :
    ∀ e ∈ get_schema_values_py2 rows,
      e.columns =
        (rows.filter (fun r => qualifiedName r == e.name)).map CatalogRow.column_name ∧
      e.name ∈ rows.map qualifiedName := by
  intro e he
  have he' : e ∈ get_schema_tables rows := by
    simp only [get_schema_values_py2, List.mem_filterMap] at he
    obtain ⟨k, -, hfind⟩ := he
    exact List.mem_of_find?_eq_some hfind
  constructor
  · rcases fold_columns rows [] e he' with ⟨e0, he0, -, -⟩ | ⟨-, hcols⟩
    · exact absurd he0 (List.not_mem_nil e0)
    · exact hcols
  · have hname : e.name ∈ (get_schema_tables rows).map TableSchemaEntry.name :=
      List.mem_map_of_mem TableSchemaEntry.name he'
    simp only [get_schema_tables] at hname
    rw [fold_names rows []] at hname
    exact dedupNew_mem _ _ (by simpa using hname)

/-- Claim C4 (witness): the amended theorem instantiated on the `s1.t1`
entry of the spec's example rows, as returned by the Python 2 values
order. -/
theorem c4_grouping_hash_order_witness :
    ((⟨"s1.t1", ["c1", "c2"]⟩ : TableSchemaEntry) ∈
      get_schema_values_py2 [⟨"s1", "t1", "c1"⟩, ⟨"s1", "t1", "c2"⟩, ⟨"s2", "t2", "c3"⟩]) ∧
    (⟨"s1.t1", ["c1", "c2"]⟩ : TableSchemaEntry).columns =
      (([⟨"s1", "t1", "c1"⟩, ⟨"s1", "t1", "c2"⟩, ⟨"s2", "t2", "c3"⟩] : List CatalogRow).filter
        (fun r => qualifiedName r == (⟨"s1.t1", ["c1", "c2"]⟩ : TableSchemaEntry).name)).map
          CatalogRow.column_name :=
  ⟨by decide,
   (c4_grouping_hash_order [⟨"s1", "t1", "c1"⟩, ⟨"s1", "t1", "c2"⟩, ⟨"s2", "t2", "c3"⟩] _
      (by decide)).1⟩

/-- Claim C9: every entry `get_schema` returns has a non-empty column
list, and its name is the qualified name of exactly the catalog rows
that contributed its columns (the entry is created together with its
first column). -/
theorem c9_entry_invariant (rows : List CatalogRow) :
    ∀ e ∈ get_schema_tables rows,
      e.columns ≠ [] ∧
      e.columns =
        (rows.filter (fun r => qualifiedName r == e.name)).map CatalogRow.column_name := by
  intro e he
  have hcols : e.columns =
      (rows.filter (fun r => qualifiedName r == e.name)).map CatalogRow.column_name := by
    rcases fold_columns rows [] e he with ⟨e0, he0, -, -⟩ | ⟨-, hcols⟩
    · exact absurd he0 (List.not_mem_nil e0)
    · exact hcols
  refine ⟨?_, hcols⟩
  have hname : e.name ∈ (get_schema_tables rows).map TableSchemaEntry.name :=
    List.mem_map_of_mem TableSchemaEntry.name he
  simp only [get_schema_tables] at hname
  rw [fold_names rows []] at hname
  have hq : e.name ∈ rows.map qualifiedName :=
    dedupNew_mem _ _ (by simpa using hname)
  obtain ⟨r, hr, hqr⟩ := List.mem_map.mp hq
  have hrf : r ∈ rows.filter (fun r => qualifiedName r == e.name) :=
    List.mem_filter.mpr ⟨hr, by simp [hqr]⟩
  have hmem : r.column_name ∈
      (rows.filter (fun r => qualifiedName r == e.name)).map CatalogRow.column_name :=
    List.mem_map_of_mem CatalogRow.column_name hrf
  rw [← hcols] at hmem
  exact List.ne_nil_of_mem hmem

/-- Claim C9 (witness): the invariant instantiated on the entry `s2.t2`
of the spec's example rows. -/
theorem c9_entry_invariant_witness :
    ((⟨"s2.t2", ["c3"]⟩ : TableSchemaEntry) ∈
      get_schema_tables [⟨"s1", "t1", "c1"⟩, ⟨"s1", "t1", "c2"⟩, ⟨"s2", "t2", "c3"⟩]) ∧
    (⟨"s2.t2", ["c3"]⟩ : TableSchemaEntry).columns ≠ [] :=
  ⟨by decide,
   (c9_entry_invariant [⟨"s1", "t1", "c1"⟩, ⟨"s1", "t1", "c2"⟩, ⟨"s2", "t2", "c3"⟩] _
      (by decide)).1⟩

lemma foldl_dictInsert (l : List (String × PyVal)) :
    ∀ d : List (String × PyVal),
      ((d ++ l).map Prod.fst).Nodup →
      l.foldl (fun acc p => dictInsert acc p.1 p.2) d = d ++ l := by
  induction l with
  | nil => intro d _; simp
  | cons kv rest ih =>
      intro d hnd
      obtain ⟨k, v⟩ := kv
      have hk : k ∉ d.map Prod.fst := by
        intro hmem
        rw [List.map_append, List.nodup_append] at hnd
        exact hnd.2.2 hmem (by simp)
      have hany : d.any (fun p => p.1 == k) = false := by
        cases hany : d.any (fun p => p.1 == k) with
        | true =>
            obtain ⟨p, hp, hpk⟩ := List.any_eq_true.mp hany
            exact absurd (List.mem_map_of_mem Prod.fst hp)
              (by rw [beq_iff_eq] at hpk; rw [← hpk] at hk; exact hk)
        | false => rfl
      have hins : dictInsert d k v = d ++ [(k, v)] := by
        simp [dictInsert, hany]
      rw [List.foldl_cons]
      show rest.foldl (fun acc p => dictInsert acc p.1 p.2) (dictInsert d k v) = _
      rw [hins, ih (d ++ [(k, v)]) (by simpa [List.append_assoc] using hnd)]
      simp

lemma pyDict_nodup (l : List (String × PyVal)) (h : (l.map Prod.fst).Nodup) :
    pyDict l = l := by
  have h2 := foldl_dictInsert l [] (by simpa using h)
  simpa [pyDict] using h2

/-- The Column sequence `run_query` builds on success: the
`(i[0], PRESTO_TYPES_MAPPING.get(i[1], None))` tuples of the cursor
description passed through `fetch_columns` (lines 142-144). -/
def runColumns (desc : List (String × String)) : List Column :=
  fetch_columns (desc.map (fun i => (i.1, prestoTypesMappingGet i.2)))

/-- Claim C5 (counterexample): with duplicated column names the Row
mapping does not have `len(columns)` keys.  Columns `a, a` and engine
row `(1, 2)` produce the single-entry row dict with the last value
winning, one key against two columns. -/
theorem c5_counterexample :
    (run_query { host := some "h" } none "q" (EngineBehavior.success
        [("a", "integer"), ("a", "integer")] [[PyVal.pyint 1, PyVal.pyint 2]])).result =
      Except.ok (some ⟨[⟨"a", CanonicalType.INTEGER⟩, ⟨"a", CanonicalType.INTEGER⟩],
        [[("a", PyVal.pyint 2)]]⟩, none) ∧
    ([("a", PyVal.pyint 2)] : List (String × PyVal)).length ≠
      ([⟨"a", CanonicalType.INTEGER⟩, ⟨"a", CanonicalType.INTEGER⟩] : List Column).length :=
  ⟨rfl, by decide⟩

/-- Claim C5 (amended): on success the result holds one Row dict per
engine row (same length, in order), each Row obtained by zipping the
Column names positionally with the engine row into a Python dict where
the last value wins on duplicate names; when the column names are
distinct and the engine row has one value per column, the Row keeps all
`len(columns)` pairs and its keys are exactly the Column names in
order. -/
theorem c5_rows_mapping (conf : Configuration) (user : Option User) (q : String)
    (desc : List (String × String)) (erows : List (List PyVal)) :
    (run_query conf user q (EngineBehavior.success desc erows)).result =
      Except.ok (some ⟨runColumns desc,
        erows.map (fun r => pyDict (((runColumns desc).map Column.name).zip r))⟩, none) ∧
    (erows.map (fun r => pyDict (((runColumns desc).map Column.name).zip r))).length =
      erows.length ∧
    (((runColumns desc).map Column.name).Nodup →
      ∀ r ∈ erows, r.length = ((runColumns desc).map Column.name).length →
        pyDict (((runColumns desc).map Column.name).zip r) =
            ((runColumns desc).map Column.name).zip r ∧
          (pyDict (((runColumns desc).map Column.name).zip r)).map Prod.fst =
            (runColumns desc).map Column.name) := by
  refine ⟨rfl, by simp, ?_⟩
  intro hnd r _ hlen
  have hzip : ((((runColumns desc).map Column.name).zip r).map Prod.fst) =
      (runColumns desc).map Column.name :=
    List.map_fst_zip _ _ (le_of_eq hlen.symm)
  have hnodup : (((((runColumns desc).map Column.name).zip r)).map Prod.fst).Nodup := by
    rw [hzip]; exact hnd
  have hd := pyDict_nodup _ hnodup
  exact ⟨hd, by rw [hd, hzip]⟩

/-- Claim C5 (witness): the amended theorem instantiated on two distinct
columns `a, b` and the engine row `(1, "x")`. -/
theorem c5_rows_mapping_witness :
    (((runColumns [("a", "integer"), ("b", "varchar")]).map Column.name).Nodup ∧
      ([PyVal.pyint 1, PyVal.pystr "x"] : List PyVal).length =
        ((runColumns [("a", "integer"), ("b", "varchar")]).map Column.name).length) ∧
    pyDict (((runColumns [("a", "integer"), ("b", "varchar")]).map Column.name).zip
        [PyVal.pyint 1, PyVal.pystr "x"]) =
      ((runColumns [("a", "integer"), ("b", "varchar")]).map Column.name).zip
        [PyVal.pyint 1, PyVal.pystr "x"] :=
  ⟨⟨by decide, by decide⟩,
   ((c5_rows_mapping { host := some "h" } none "q" [("a", "integer"), ("b", "varchar")]
      [[PyVal.pyint 1, PyVal.pystr "x"]]).2.2 (by decide) _ (by simp) (by decide)).1⟩
